import Mathlib

/-!
# Verification of the Markdown → Word (`.docx`) converter

This development is a shallow embedding of the `converter` package of the
`markdown2word` tool (Go source file defining `Converter`, `processNode`,
`addHeading`, `addParagraph`, `processInlineNodes`, `wrapRuns`, `addCodeBlock`,
`addList`, `addListItem`, `addBlockquote`, `addHorizontalRule`, `extractText`,
`createDocx`, `getPageDimensions`, `escapeXML`).

Modelling conventions:
* Go strings are Lean `String`s (sequences of Unicode scalar values).  The Go
  code only ever feeds valid UTF-8 through `xml.EscapeText`, so the byte-level
  invalid-rune branch of `EscapeText` is unreachable and is not modelled.
* Go `float64` option fields are modelled as `ℚ`; the Go conversion
  `int(x)` (truncation toward zero) is `goTrunc`.
* The mutable `c.paragraphs` accumulator is modelled functionally: every
  translator function returns the list of fragments it appends, in order.
* A produced `<w:p>` paragraph string is modelled in two stages: a structured
  `Frag` value recording exactly the data the Go `fmt.Sprintf` call embeds,
  and a serializer `serializeFrag` reproducing the Go template byte for byte
  (escaping applied at exactly the call sites where Go applies `escapeXML`).
-/

set_option maxRecDepth 4096

namespace MdWord

/-- Go `converter.Options` (font sizes and margins are `float64` in Go,
modelled as `ℚ`; `PageSize` is a string). -/
structure Options where
  fontFamily : String := ""
  fontSize : ℚ := 0
  codeFontFamily : String := ""
  codeFontSize : ℚ := 0
  marginTop : ℚ := 0
  marginBottom : ℚ := 0
  marginLeft : ℚ := 0
  marginRight : ℚ := 0
  pageSize : String := ""

/-- Go `int(q)` for a nonnegative-or-negative rational: truncation toward
zero, as Go's `float64`→`int` conversion does. -/
def goTrunc (q : ℚ) : Int := Int.tdiv q.num (q.den : Int)

/-! ## `escapeXML` (Go `xml.EscapeText`)

`xml.EscapeText` walks the runes of its input and replaces
`"` `&#34;`, `'` `&#39;`, `&` `&amp;`, `<` `&lt;`, `>` `&gt;`,
tab `&#x9;`, newline `&#xA;`, carriage return `&#xD;`; any rune outside the
XML character range is replaced by U+FFFD; every other rune is copied. -/

/-- Go `xml.isInCharacterRange`: the XML 1.0 `Char` production. -/
def isInCharacterRange (n : Nat) : Bool :=
  n == 0x09 || n == 0x0A || n == 0x0D ||
  (0x20 ≤ n && n ≤ 0xD7FF) || (0xE000 ≤ n && n ≤ 0xFFFD) ||
  (0x10000 ≤ n && n ≤ 0x10FFFF)

/-- The per-rune escaping performed by `xml.EscapeText`: the replacement
lists are the characters of `&#34;` `&#39;` `&amp;` `&lt;` `&gt;` `&#x9;`
`&#xA;` `&#xD;`. -/
def escChar (c : Char) : List Char :=
  if c = '"' then ['&', '#', '3', '4', ';']
  else if c = Char.ofNat 39 then ['&', '#', '3', '9', ';']
  else if c = '&' then ['&', 'a', 'm', 'p', ';']
  else if c = '<' then ['&', 'l', 't', ';']
  else if c = '>' then ['&', 'g', 't', ';']
  else if c = '\t' then ['&', '#', 'x', '9', ';']
  else if c = '\n' then ['&', '#', 'x', 'A', ';']
  else if c = '\r' then ['&', '#', 'x', 'D', ';']
  else if isInCharacterRange c.toNat then [c]
  else [Char.ofNat 0xFFFD]

/-- Go `escapeXML`: `xml.EscapeText` over the whole string. -/
def escapeXML (s : String) : String := String.mk (s.data.flatMap escChar)

/-! ### Verification-side XML text decoding

`unescapeChars` is the inverse reading of the eight entity forms emitted by
`escapeXML`; it is used to state the round-trip property of the spec. -/

/-- The eight entity encodings emitted by `escapeXML`, with the character
each one decodes to.  No entry is a prefix of another, so first-match
decoding is unambiguous. -/
def entList : List (List Char × Char) :=
  [(['a', 'm', 'p', ';'], '&'), (['l', 't', ';'], '<'), (['g', 't', ';'], '>'),
   (['#', '3', '4', ';'], '"'), (['#', '3', '9', ';'], Char.ofNat 39),
   (['#', 'x', '9', ';'], '\t'), (['#', 'x', 'A', ';'], '\n'),
   (['#', 'x', 'D', ';'], '\r')]

/-- The entity (if any) starting at the characters following a `&`. -/
def findEnt (rest : List Char) : Option (List Char × Char) :=
  entList.find? (fun e => e.1.isPrefixOf rest)

/-- Decode the XML character entities produced by `escapeXML`; any other
character (including a stray `&`) is copied verbatim. -/
def unescapeChars (l : List Char) : List Char :=
  match l with
  | [] => []
  | c :: rest =>
    if c = '&' then
      match findEnt rest with
      | some (pat, d) => d :: unescapeChars (rest.drop pat.length)
      | none => c :: unescapeChars rest
    else c :: unescapeChars rest
termination_by l.length
decreasing_by
  · simp [List.length_drop]; omega
  · simp
  · simp

/-- String-level entity decoding. -/
def unescapeXML (s : String) : String := String.mk (unescapeChars s.data)

/-- Checks that every `&` occurring in the character list begins one of the
eight entity forms emitted by `escapeXML` (the "appears only in escaped
entity form" reading for the ampersand itself). -/
def ampOk : List Char → Bool
  | [] => true
  | c :: rest =>
    (if c = '&' then
      ['a', 'm', 'p', ';'].isPrefixOf rest || ['l', 't', ';'].isPrefixOf rest ||
      ['g', 't', ';'].isPrefixOf rest || ['#', '3', '4', ';'].isPrefixOf rest ||
      ['#', '3', '9', ';'].isPrefixOf rest || ['#', 'x', '9', ';'].isPrefixOf rest ||
      ['#', 'x', 'A', ';'].isPrefixOf rest || ['#', 'x', 'D', ';'].isPrefixOf rest
     else true) && ampOk rest

/-! ## Whitespace handling of `extractText`

`extractText` post-processes the collected text with
`regexp.MustCompile("\\s+").ReplaceAllString(text, " ")` followed by
`strings.TrimSpace`.  Go's RE2 `\s` is exactly `[\t\n\f\r ]`, while
`strings.TrimSpace` trims by `unicode.IsSpace` (the Unicode `White_Space`
property). -/

/-- Go RE2 `\s`: tab, newline, form feed, carriage return, space. -/
def goRegexpSpace (c : Char) : Bool :=
  c = '\t' || c = '\n' || c = Char.ofNat 12 || c = '\r' || c = ' '

/-- Go `unicode.IsSpace` (`White_Space` property). -/
def goUnicodeIsSpace (c : Char) : Bool :=
  let n := c.toNat
  (0x09 ≤ n && n ≤ 0x0D) || n == 0x20 || n == 0x85 || n == 0xA0 ||
  n == 0x1680 || (0x2000 ≤ n && n ≤ 0x200A) || n == 0x2028 || n == 0x2029 ||
  n == 0x202F || n == 0x205F || n == 0x3000

/-- `ReplaceAllString` of `\s+` by a single space: each maximal run of
`goRegexpSpace` characters is replaced by one `' '`.  The flag records
whether the previous character belonged to a run. -/
def collapseAux (prevSpace : Bool) : List Char → List Char
  | [] => []
  | c :: rest =>
    if goRegexpSpace c then
      if prevSpace then collapseAux true rest
      else ' ' :: collapseAux true rest
    else c :: collapseAux false rest

/-- Go `strings.TrimSpace`: drop leading and trailing `unicode.IsSpace`
characters. -/
def goTrimSpace (l : List Char) : List Char :=
  ((l.dropWhile goUnicodeIsSpace).reverse.dropWhile goUnicodeIsSpace).reverse

/-- The whitespace normalization at the end of Go `extractText`:
collapse `\s+` runs to one space, then `TrimSpace`. -/
def normalizeWs (s : String) : String :=
  String.mk (goTrimSpace (collapseAux false s.data))

/-! ## The Markdown AST consumed by the converter

The converter walks a goldmark AST.  Leaf text nodes address byte ranges of
the source buffer; in this shallow embedding a text node carries the string
`segment.Value(source)` directly.  Only the node kinds the converter
dispatches on are distinguished; every other node kind is `other` (inline)
resp. `otherB` (block) with its children. -/

/-- Inline AST nodes (`ast.Text`, `ast.String`, `ast.Emphasis`,
`ast.CodeSpan`, `ast.Link`, `ast.AutoLink`, `ast.Image`, anything else). -/
inductive Inl where
  | text (s : String)
  | str (s : String)
  | emphasis (level : Int) (children : List Inl)
  | codeSpan (children : List Inl)
  | link (dest : String) (children : List Inl)
  | autoLink (url : String)
  | image (children : List Inl)
  | other (children : List Inl)

/-- Block AST nodes.  `heading`, `paragraph` and `textBlock` contain inline
children; a `list` contains (mostly) `listItem` children; a `listItem`
contains block children.  `otherB` is any block kind the converter does not
dispatch on (e.g. the GFM table nodes). -/
inductive Blk where
  | heading (level : Int) (children : List Inl)
  | paragraph (children : List Inl)
  | textBlock (children : List Inl)
  | fencedCodeBlock (lines : List String)
  | codeBlock (lines : List String)
  | list (ordered : Bool) (children : List Blk)
  | listItem (children : List Blk)
  | blockquote (children : List Blk)
  | thematicBreak
  | htmlBlock
  | otherB (children : List Blk)

/-! ## `extractText`

Go `extractText` does an `ast.Walk` from the given node collecting the text
of every `ast.Text` and `ast.String` descendant; at an `ast.CodeSpan` it
collects only the direct `ast.Text` children and skips the subtree; finally
it normalizes whitespace (`normalizeWs`).  `ast.AutoLink` stores its URL
outside the child list, so a walk collects nothing from it. -/

/-- The direct-`ast.Text`-children collection done for a code span. -/
def codeSpanDirectText : List Inl → String
  | [] => ""
  | .text s :: rest => s ++ codeSpanDirectText rest
  | _ :: rest => codeSpanDirectText rest

mutual
/-- Raw (un-normalized) text collected by the `ast.Walk` of `extractText`
starting at one inline node. -/
def rawTextInl : Inl → String
  | .text s => s
  | .str s => s
  | .emphasis _ cs => rawTextList cs
  | .codeSpan cs => codeSpanDirectText cs
  | .link _ cs => rawTextList cs
  | .autoLink _ => ""
  | .image cs => rawTextList cs
  | .other cs => rawTextList cs

/-- Raw text collected from a list of inline nodes, in order. -/
def rawTextList : List Inl → String
  | [] => ""
  | i :: rest => rawTextInl i ++ rawTextList rest
end

/-- Go `extractText` on an inline node. -/
def extractTextInl (i : Inl) : String := normalizeWs (rawTextInl i)

/-- Go `extractText` on a node whose children are the given inline nodes
(used for headings and for the walk from a composite inline node). -/
def extractTextInls (is : List Inl) : String := normalizeWs (rawTextList is)

/-! ## The Style/Run model and the Inline Translator -/

/-- Go `RunStyle`: one run of inline text with its style attributes. -/
structure RunStyle where
  text : String := ""
  bold : Bool := false
  italic : Bool := false
  code : Bool := false
  link : Bool := false
  linkURL : String := ""
  color : String := ""
  highlight : Bool := false
deriving DecidableEq, Repr

/-- Go `processInlineNodes`: flatten a node's inline children to runs.
An emphasis of level 1 becomes an italic run, of level 2 a bold run, and of
any other level no run at all; a code span becomes a monospace+highlight
run; links and autolinks become runs with the fixed link color `0000FF`;
an image becomes a bracketed italic gray placeholder (`Image` when the alt
text is empty); an unknown inline node with children is flattened
recursively. -/
def processInlineNodes : List Inl → List RunStyle
  | [] => []
  | .text s :: rest => { text := s } :: processInlineNodes rest
  | .str s :: rest => { text := s } :: processInlineNodes rest
  | .emphasis level cs :: rest =>
      (if level = 1 then [{ text := extractTextInls cs, italic := true }]
       else if level = 2 then [{ text := extractTextInls cs, bold := true }]
       else []) ++ processInlineNodes rest
  | .codeSpan cs :: rest =>
      { text := normalizeWs (codeSpanDirectText cs), code := true,
        highlight := true } :: processInlineNodes rest
  | .link dest cs :: rest =>
      { text := extractTextInls cs, link := true, linkURL := dest,
        color := "0000FF" } :: processInlineNodes rest
  | .autoLink url :: rest =>
      { text := url, link := true, linkURL := url, color := "0000FF" }
        :: processInlineNodes rest
  | .image cs :: rest =>
      { text := "[" ++ (if extractTextInls cs = "" then "Image"
                        else extractTextInls cs) ++ "]",
        italic := true, color := "808080" } :: processInlineNodes rest
  | .other cs :: rest => processInlineNodes cs ++ processInlineNodes rest

/-! ## Fragments

The Go converter appends fully serialized `<w:p>` strings to `c.paragraphs`.
A `Frag` records the exact data one such `fmt.Sprintf` call embeds into its
template; `serializeFrag` (below) reproduces the template itself, so that
`(… : List Frag).map (serializeFrag opts)` is the Go `paragraphs` slice. -/

/-- One output paragraph, one constructor per `fmt.Sprintf` template in the
Go source (heading, body paragraph, code line, the fixed code-block spacer,
list item, blockquote paragraph, horizontal rule). -/
inductive Frag where
  | headingP (size : Int) (text : String)
  | paraP (fontSize : Int) (runs : List RunStyle)
  | codeLineP (codeFontSize : Int) (line : String)
  | codeSpacerP
  | listItemP (indent : Int) (fontSize : Int) (bullet : String) (runs : List RunStyle)
  | quoteP (fontSize : Int) (runs : List RunStyle)
  | hrP
deriving DecidableEq, Repr

/-! ## Block Translator -/

/-- Go `headingSizes`: the fixed level → half-point size map (a missing key
would yield Go's zero value). -/
def headingSizes (level : Int) : Int :=
  if level = 1 then 48 else if level = 2 then 40 else if level = 3 then 32
  else if level = 4 then 28 else if level = 5 then 24 else if level = 6 then 22
  else 0

/-- The two sequential clamping statements at the top of Go `addHeading`:
`if level < 1 { level = 1 }; if level > 6 { level = 6 }`. -/
def clampLevel (level : Int) : Int :=
  let l1 := if level < 1 then 1 else level
  if l1 > 6 then 6 else l1

/-- Go `addHeading`: one bold fragment at the table size for the clamped
level, text extracted from all inline descendants. -/
def addHeading (level : Int) (children : List Inl) : List Frag :=
  [Frag.headingP (headingSizes (clampLevel level)) (extractTextInls children)]

/-- Go `addParagraph`. -/
def addParagraph (opts : Options) (children : List Inl) : List Frag :=
  [Frag.paraP (goTrunc (opts.fontSize * 2)) (processInlineNodes children)]

/-- Go `strings.TrimRight(s, "\n")`: drop all trailing newline characters. -/
def trimRightNl (s : String) : String :=
  String.mk (s.data.reverse.dropWhile (fun c => c = '\n')).reverse

/-- Go `addCodeBlock`: join the block's line segments, trim trailing
newlines, split on newline; one fragment per line (an empty line becomes a
single space), then the fixed spacer fragment. -/
def addCodeBlock (opts : Options) (lines : List String) : List Frag :=
  let codeText := trimRightNl (String.join lines)
  let codeLines := codeText.splitOn "\n"
  let codeFontSize := goTrunc (opts.codeFontSize * 2)
  codeLines.map (fun line =>
    Frag.codeLineP codeFontSize (if line = "" then " " else line))
    ++ [Frag.codeSpacerP]

/-- Go `addHorizontalRule`. -/
def addHorizontalRule : List Frag := [Frag.hrP]

/-- The bullet string literal of Go `addListItem`.  In the source file the
literal is the three characters U+00E2 U+20AC U+00A2 followed by a space
(the UTF-8 bytes of `U+2022 BULLET` mis-decoded as Latin-1), not `U+2022`
itself. -/
def unorderedBullet : String := "â€¢ "

mutual
/-- Go `processNode`: dispatch on each child block.  `ast.HTMLBlock` is
skipped; any other unmatched kind is recursed into.  A `textBlock` reached
here recurses into its inline children, which match no block case and so
contribute nothing. -/
def processNode (opts : Options) (bs : List Blk) : List Frag :=
  match bs with
  | [] => []
  | child :: rest =>
    (match child with
     | .heading level cs => addHeading level cs
     | .paragraph cs => addParagraph opts cs
     | .fencedCodeBlock ls => addCodeBlock opts ls
     | .codeBlock ls => addCodeBlock opts ls
     | .list ordered cs => addList opts ordered cs 0
     | .blockquote cs => addBlockquote opts cs
     | .thematicBreak => addHorizontalRule
     | .htmlBlock => []
     | .textBlock _ => []
     | .listItem cs => processNode opts cs
     | .otherB cs => processNode opts cs) ++ processNode opts rest
termination_by (sizeOf bs, 0)

/-- Go `addList`: iterate the children with an item counter starting at 1;
only `ast.ListItem` children are emitted (and counted). -/
def addList (opts : Options) (ordered : Bool) (children : List Blk)
    (level : Int) : List Frag :=
  addListLoop opts ordered children level 1
termination_by (sizeOf children, 1)

/-- The `for child := …` loop of Go `addList`. -/
def addListLoop (opts : Options) (ordered : Bool) (children : List Blk)
    (level itemNum : Int) : List Frag :=
  match children with
  | [] => []
  | .listItem cs :: rest =>
      addListItem opts cs level ordered itemNum
        ++ addListLoop opts ordered rest level (itemNum + 1)
  | _ :: rest => addListLoop opts ordered rest level itemNum
termination_by (sizeOf children, 0)

/-- Go `addListItem`: computes indent, font size and bullet, then walks the
item's children accumulating content runs. -/
def addListItem (opts : Options) (children : List Blk) (level : Int)
    (isOrdered : Bool) (itemNum : Int) : List Frag :=
  addListItemLoop opts children (360 + level * 360)
    (goTrunc (opts.fontSize * 2))
    (if isOrdered then toString itemNum ++ ". " else unorderedBullet)
    level []
termination_by (sizeOf children, 1)

/-- The `for child := …` loop of Go `addListItem`: text blocks and
paragraphs extend `contentRuns`; at the first nested list the item's own
fragment is emitted, the nested list is translated at `level + 1`, and the
function returns (children after the nested list are never visited); any
other child kind is skipped.  When the loop ends without meeting a nested
list, the item's fragment is emitted after it. -/
def addListItemLoop (opts : Options) (children : List Blk)
    (indent fontSize : Int) (bullet : String) (level : Int)
    (contentRuns : List RunStyle) : List Frag :=
  match children with
  | [] => [Frag.listItemP indent fontSize bullet contentRuns]
  | .textBlock is :: rest =>
      addListItemLoop opts rest indent fontSize bullet level
        (contentRuns ++ processInlineNodes is)
  | .paragraph is :: rest =>
      addListItemLoop opts rest indent fontSize bullet level
        (contentRuns ++ processInlineNodes is)
  | .list ordered cs :: _ =>
      Frag.listItemP indent fontSize bullet contentRuns
        :: addList opts ordered cs (level + 1)
  | _ :: rest =>
      addListItemLoop opts rest indent fontSize bullet level contentRuns
termination_by (sizeOf children, 0)

/-- Go `addBlockquote`: one fragment per `ast.Paragraph` child, all runs
forced italic with the muted color `6A737D`; non-paragraph children are
skipped. -/
def addBlockquote (opts : Options) (children : List Blk) : List Frag :=
  match children with
  | [] => []
  | .paragraph cs :: rest =>
      Frag.quoteP (goTrunc (opts.fontSize * 2))
        ((processInlineNodes cs).map
          (fun r => { r with italic := true, color := "6A737D" }))
        :: addBlockquote opts rest
  | _ :: rest => addBlockquote opts rest
termination_by (sizeOf children, 0)
end

/-! ## Serialization (the `fmt.Sprintf` templates)

Each `Frag` constructor is serialized by reproducing the Go template
character for character; `escapeXML` is applied exactly where Go applies it.
The templates are split at the `%d`/`%s` insertion points, and the leading
constant chunks are named so theorems can speak about them. -/

/-- Go `wrapRuns`, body of the per-run loop.  Note that the monospace font
family is the hard-coded literal `Consolas`; `Options.CodeFontFamily` is
not consulted anywhere in the Go source. -/
def serializeRun (opts : Options) (defaultFontSize : Int) (run : RunStyle) :
    String :=
  let codeFontSize := goTrunc (opts.codeFontSize * 2)
  let fontSize := if run.code then codeFontSize else defaultFontSize
  "<w:r><w:rPr>" ++
  ((if run.bold then "<w:b/>" else "") ++
  ((if run.italic then "<w:i/>" else "") ++
  ((if run.color ≠ "" then "<w:color w:val=\"" ++ run.color ++ "\"/>" else "") ++
  ((if run.link then "<w:u w:val=\"single\"/>" else "") ++
  ((if run.highlight then "<w:highlight w:val=\"lightGray\"/>" else "") ++
  ((if run.code then "<w:rFonts w:ascii=\"Consolas\" w:hAnsi=\"Consolas\"/>" else "") ++
  ("<w:sz w:val=\"" ++ (toString fontSize ++ ("\"/><w:szCs w:val=\"" ++
  (toString fontSize ++ ("\"/>" ++ ("</w:rPr>" ++
  ("<w:t xml:space=\"preserve\">" ++
  (escapeXML run.text ++ "</w:t></w:r>"))))))))))))))

/-- Go `wrapRuns`: concatenation of the serialized runs. -/
def wrapRuns (opts : Options) (runs : List RunStyle) (defaultFontSize : Int) :
    String :=
  String.join (runs.map (serializeRun opts defaultFontSize))

/-- The constant head of the heading template (everything before the first
`%d`); it carries the forced-bold `<w:b/>` marker. -/
def headingTemplateHead : String :=
  "<w:p>\n      <w:pPr>\n        <w:spacing w:after=\"120\" w:before=\"240\"/>\n      </w:pPr>\n      <w:r>\n        <w:rPr>\n          <w:b/>\n          <w:sz w:val=\""

/-- The constant head of the code-line template (everything before the
first `%d`); it carries the `F6F8FA` shading marker and the hard-coded
`Consolas` font. -/
def codeLineTemplateHead : String :=
  "<w:p>\n      <w:pPr>\n        <w:shd w:val=\"clear\" w:color=\"auto\" w:fill=\"F6F8FA\"/>\n        <w:ind w:left=\"360\"/>\n        <w:spacing w:after=\"0\"/>\n      </w:pPr>\n      <w:r>\n        <w:rPr>\n          <w:rFonts w:ascii=\"Consolas\" w:hAnsi=\"Consolas\"/>\n          <w:sz w:val=\""

/-- The constant head of the list-item template (everything before the
indent `%d`). -/
def listItemTemplateHead : String :=
  "<w:p>\n      <w:pPr>\n        <w:ind w:left=\""

/-- Serialize one fragment, reproducing the corresponding Go
`fmt.Sprintf` template. -/
def serializeFrag (opts : Options) : Frag → String
  | .headingP size text =>
      headingTemplateHead ++ (toString size ++
      ("\"/>\n          <w:szCs w:val=\"" ++ (toString size ++
      ("\"/>\n        </w:rPr>\n        <w:t xml:space=\"preserve\">" ++
      (escapeXML text ++ "</w:t>\n      </w:r>\n    </w:p>")))))
  | .paraP fontSize runs =>
      "<w:p>\n      <w:pPr>\n        <w:spacing w:after=\"160\"/>\n      </w:pPr>\n      " ++
      (wrapRuns opts runs fontSize ++ "\n    </w:p>")
  | .codeLineP codeFontSize line =>
      codeLineTemplateHead ++ (toString codeFontSize ++
      ("\"/>\n          <w:szCs w:val=\"" ++ (toString codeFontSize ++
      ("\"/>\n        </w:rPr>\n        <w:t xml:space=\"preserve\">" ++
      (escapeXML line ++ "</w:t>\n      </w:r>\n    </w:p>")))))
  | .codeSpacerP =>
      "<w:p><w:pPr><w:spacing w:after=\"160\"/></w:pPr></w:p>"
  | .listItemP indent fontSize bullet runs =>
      listItemTemplateHead ++ (toString indent ++
      ("\"/>\n        <w:spacing w:after=\"80\"/>\n      </w:pPr>\n      <w:r>\n        <w:rPr>\n          <w:sz w:val=\"" ++
      (toString fontSize ++ ("\"/>\n          <w:szCs w:val=\"" ++
      (toString fontSize ++
      ("\"/>\n        </w:rPr>\n        <w:t xml:space=\"preserve\">" ++
      (escapeXML bullet ++ ("</w:t>\n      </w:r>\n      " ++
      (wrapRuns opts runs fontSize ++ "\n    </w:p>")))))))))
  | .quoteP fontSize runs =>
      "<w:p>\n      <w:pPr>\n        <w:ind w:left=\"720\"/>\n        <w:pBdr>\n          <w:left w:val=\"single\" w:sz=\"24\" w:space=\"4\" w:color=\"DFE2E5\"/>\n        </w:pBdr>\n        <w:spacing w:after=\"160\"/>\n      </w:pPr>\n      " ++
      (wrapRuns opts runs fontSize ++ "\n    </w:p>")
  | .hrP =>
      "<w:p>\n      <w:pPr>\n        <w:pBdr>\n          <w:bottom w:val=\"single\" w:sz=\"6\" w:space=\"1\" w:color=\"E1E4E8\"/>\n        </w:pBdr>\n        <w:spacing w:before=\"240\" w:after=\"240\"/>\n      </w:pPr>\n    </w:p>"

/-! ## Container Assembler (`createDocx`, `getPageDimensions`)

`createDocx` writes five parts into a zip archive, in a fixed order, then
writes the file.  The zip/file I/O is external; the embedding models the
archive as the ordered list of (part name, part content) pairs. -/

/-- The `[Content_Types].xml` part (a constant in the Go source). -/
def contentTypesXml : String :=
  "<?xml version=\"1.0\" encoding=\"UTF-8\" standalone=\"yes\"?>\n<Types xmlns=\"http://schemas.openxmlformats.org/package/2006/content-types\">\n  <Default Extension=\"rels\" ContentType=\"application/vnd.openxmlformats-package.relationships+xml\"/>\n  <Default Extension=\"xml\" ContentType=\"application/xml\"/>\n  <Override PartName=\"/word/document.xml\" ContentType=\"application/vnd.openxmlformats-officedocument.wordprocessingml.document.main+xml\"/>\n  <Override PartName=\"/word/styles.xml\" ContentType=\"application/vnd.openxmlformats-officedocument.wordprocessingml.styles+xml\"/>\n</Types>"

/-- The `_rels/.rels` part (a constant in the Go source). -/
def relsXml : String :=
  "<?xml version=\"1.0\" encoding=\"UTF-8\" standalone=\"yes\"?>\n<Relationships xmlns=\"http://schemas.openxmlformats.org/package/2006/relationships\">\n  <Relationship Id=\"rId1\" Type=\"http://schemas.openxmlformats.org/officeDocument/2006/relationships/officeDocument\" Target=\"word/document.xml\"/>\n</Relationships>"

/-- The `word/_rels/document.xml.rels` part (a constant in the Go source). -/
def docRelsXml : String :=
  "<?xml version=\"1.0\" encoding=\"UTF-8\" standalone=\"yes\"?>\n<Relationships xmlns=\"http://schemas.openxmlformats.org/package/2006/relationships\">\n  <Relationship Id=\"rId1\" Type=\"http://schemas.openxmlformats.org/officeDocument/2006/relationships/styles\" Target=\"styles.xml\"/>\n</Relationships>"

/-- The `word/styles.xml` part: default font family and size from the
options (note: the font family is interpolated un-escaped, exactly as the
Go `fmt.Sprintf` does). -/
def stylesXml (opts : Options) : String :=
  "<?xml version=\"1.0\" encoding=\"UTF-8\" standalone=\"yes\"?>\n<w:styles xmlns:w=\"http://schemas.openxmlformats.org/wordprocessingml/2006/main\">\n  <w:docDefaults>\n    <w:rPrDefault>\n      <w:rPr>\n        <w:rFonts w:ascii=\"" ++
  (opts.fontFamily ++ ("\" w:hAnsi=\"" ++ (opts.fontFamily ++
  ("\"/>\n        <w:sz w:val=\"" ++ (toString (goTrunc (opts.fontSize * 2)) ++
  ("\"/>\n        <w:szCs w:val=\"" ++ (toString (goTrunc (opts.fontSize * 2)) ++
  "\"/>\n      </w:rPr>\n    </w:rPrDefault>\n  </w:docDefaults>\n</w:styles>")))))))

/-- ASCII lowering of Go `strings.ToLower` (the page-size names compared
against are ASCII; `Char.toLower` agrees with Go on them). -/
def goToLower (s : String) : String := String.mk (s.data.map Char.toLower)

/-- Go `getPageDimensions`: width and height in twips, `Letter` being the
default for any unrecognized name. -/
def getPageDimensions (opts : Options) : Int × Int :=
  let s := goToLower opts.pageSize
  if s = "a4" then (11906, 16838)
  else if s = "legal" then (12240, 20160)
  else (12240, 15840)

/-- The `word/document.xml` part: the joined paragraphs followed by the
section properties (page size and margins). -/
def documentXml (opts : Options) (paragraphs : List String) : String :=
  let dims := getPageDimensions opts
  "<?xml version=\"1.0\" encoding=\"UTF-8\" standalone=\"yes\"?>\n<w:document xmlns:w=\"http://schemas.openxmlformats.org/wordprocessingml/2006/main\">\n  <w:body>\n    " ++
  (String.intercalate "\n    " paragraphs ++
  ("\n    <w:sectPr>\n      <w:pgSz w:w=\"" ++ (toString dims.1 ++
  ("\" w:h=\"" ++ (toString dims.2 ++
  ("\"/>\n      <w:pgMar w:top=\"" ++ (toString (goTrunc (opts.marginTop * 1440)) ++
  ("\" w:right=\"" ++ (toString (goTrunc (opts.marginRight * 1440)) ++
  ("\" w:bottom=\"" ++ (toString (goTrunc (opts.marginBottom * 1440)) ++
  ("\" w:left=\"" ++ (toString (goTrunc (opts.marginLeft * 1440)) ++
  "\" w:header=\"720\" w:footer=\"720\" w:gutter=\"0\"/>\n    </w:sectPr>\n  </w:body>\n</w:document>")))))))))))))

/-- Go `createDocx`: the five parts, in the order they are written to the
zip archive. -/
def createDocx (opts : Options) (paragraphs : List String) :
    List (String × String) :=
  [("[Content_Types].xml", contentTypesXml),
   ("_rels/.rels", relsXml),
   ("word/_rels/document.xml.rels", docRelsXml),
   ("word/styles.xml", stylesXml opts),
   ("word/document.xml", documentXml opts paragraphs)]

/-- Go `Convert`, after the external Markdown parse: translate the
document's block children to fragments, serialize, assemble the package.
(`convert` takes the already-parsed child list of the document node; the
goldmark parse itself is an external collaborator.) -/
def convert (opts : Options) (doc : List Blk) : List (String × String) :=
  createDocx opts ((processNode opts doc).map (serializeFrag opts))

/-! ## Package well-formedness vocabulary

A small scanner over the generated XML text, used to state the
no-dangling-reference property: `attrVals a s` collects every value of an
`a="…"` attribute occurrence in `s`. -/

/-- Characters of an attribute value: everything up to the closing quote. -/
def takeAttrVal : List Char → List Char
  | [] => []
  | c :: rest => if c = '"' then [] else c :: takeAttrVal rest

/-- All values of occurrences of the pattern `pat` (e.g. `Target="`)
followed by a quote-terminated value. -/
def scanAttrVals (pat : List Char) : List Char → List (List Char)
  | [] => []
  | c :: rest =>
    if pat.isPrefixOf (c :: rest) then
      takeAttrVal ((c :: rest).drop pat.length) :: scanAttrVals pat rest
    else scanAttrVals pat rest

/-- String-level attribute scan. -/
def attrVals (attr : String) (s : String) : List String :=
  (scanAttrVals (attr ++ "=\"").data s.data).map String.mk

/-- Resolve an OPC `PartName` (absolute, leading `/`) to a zip entry name. -/
def stripSlash (s : String) : String :=
  match s.data with
  | '/' :: r => String.mk r
  | _ => s

/-- The zip entry names `createDocx` writes, in order. -/
def partNames : List String :=
  ["[Content_Types].xml", "_rels/.rels", "word/_rels/document.xml.rels",
   "word/styles.xml", "word/document.xml"]

/-- Every part name referenced by the package's relationship and
content-type parts: the content-type `Override` targets (absolute paths),
the package-relationship targets (relative to the package root) and the
document-relationship targets (relative to `word/`). -/
def referencedParts : List String :=
  (attrVals "PartName" contentTypesXml).map stripSlash
  ++ attrVals "Target" relsXml
  ++ (attrVals "Target" docRelsXml).map (fun t => "word/" ++ t)

/-! # Verification

## Escaping (`escapeXML`) -/

theorem unescapeChars_escChar (c : Char)
    (h : isInCharacterRange c.toNat = true) (rest : List Char) :
    unescapeChars (escChar c ++ rest) = c :: unescapeChars rest := by
  unfold escChar
  split_ifs with h1 h2 h3 h4 h5 h6 h7 h8
  · subst h1; simp [unescapeChars, findEnt, entList, List.isPrefixOf]
  · subst h2; simp [unescapeChars, findEnt, entList, List.isPrefixOf]
  · subst h3; simp [unescapeChars, findEnt, entList, List.isPrefixOf]
  · subst h4; simp [unescapeChars, findEnt, entList, List.isPrefixOf]
  · subst h5; simp [unescapeChars, findEnt, entList, List.isPrefixOf]
  · subst h6; simp [unescapeChars, findEnt, entList, List.isPrefixOf]
  · subst h7; simp [unescapeChars, findEnt, entList, List.isPrefixOf]
  · subst h8; simp [unescapeChars, findEnt, entList, List.isPrefixOf]
  · rw [List.singleton_append, unescapeChars, if_neg h3]

theorem unescapeChars_flatMap (l : List Char)
    (h : ∀ c ∈ l, isInCharacterRange c.toNat = true) :
    unescapeChars (l.flatMap escChar) = l := by
  induction l with
  | nil => simp [unescapeChars]
  | cons c t ih =>
      rw [List.flatMap_cons, unescapeChars_escChar c (h c (by simp)),
        ih (fun d hd => h d (by simp [hd]))]

theorem escChar_no_raw_reserved (c : Char) :
    ∀ d ∈ escChar c, d ≠ '<' ∧ d ≠ '>' ∧ d ≠ '"' ∧ d ≠ Char.ofNat 39 := by
  intro d hd
  unfold escChar at hd
  split_ifs at hd with h1 h2 h3 h4 h5 h6 h7 h8 h9
  · simp at hd; rcases hd with h | h | h | h | h <;> subst h <;> decide
  · simp at hd; rcases hd with h | h | h | h | h <;> subst h <;> decide
  · simp at hd; rcases hd with h | h | h | h | h <;> subst h <;> decide
  · simp at hd; rcases hd with h | h | h | h <;> subst h <;> decide
  · simp at hd; rcases hd with h | h | h | h <;> subst h <;> decide
  · simp at hd; rcases hd with h | h | h | h | h <;> subst h <;> decide
  · simp at hd; rcases hd with h | h | h | h | h <;> subst h <;> decide
  · simp at hd; rcases hd with h | h | h | h | h <;> subst h <;> decide
  · simp at hd; subst hd
    exact ⟨h4, h5, h1, h2⟩
  · simp at hd; subst hd; decide

theorem ampOk_escChar (c : Char) (r : List Char) :
    ampOk (escChar c ++ r) = ampOk r := by
  unfold escChar
  split_ifs with h1 h2 h3 h4 h5 h6 h7 h8 h9
  · simp [ampOk, List.isPrefixOf]
  · simp [ampOk, List.isPrefixOf]
  · simp [ampOk, List.isPrefixOf]
  · simp [ampOk, List.isPrefixOf]
  · simp [ampOk, List.isPrefixOf]
  · simp [ampOk, List.isPrefixOf]
  · simp [ampOk, List.isPrefixOf]
  · simp [ampOk, List.isPrefixOf]
  · simp [ampOk, h3]
  · simp [ampOk]

theorem ampOk_flatMap (l : List Char) : ampOk (l.flatMap escChar) = true := by
  induction l with
  | nil => rfl
  | cons c t ih => rw [List.flatMap_cons, ampOk_escChar, ih]

/-- A concrete option set (the flag defaults of `markdown2word convert`). -/
def opts0 : Options :=
  { fontFamily := "Calibri", fontSize := 11, codeFontFamily := "Consolas",
    codeFontSize := 10, marginTop := 1, marginBottom := 1, marginLeft := 1,
    marginRight := 1, pageSize := "Letter" }

/-- C1, counterexample: `escapeXML` replaces a character outside the XML
character range (here NUL) by U+FFFD, so XML-unescaping the serialized text
does not recover the original input for such strings. -/
theorem escapeXML_roundtrip_fails_on_nul :
    unescapeXML (escapeXML (String.mk [Char.ofNat 0]))
      ≠ String.mk [Char.ofNat 0] := by
  have h1 : escapeXML (String.mk [Char.ofNat 0])
      = String.mk [Char.ofNat 0xFFFD] := by decide
  rw [h1]
  have h2 : unescapeChars [Char.ofNat 0xFFFD] = [Char.ofNat 0xFFFD] := by
    rw [unescapeChars, if_neg (by decide), unescapeChars]
  rw [unescapeXML]
  show String.mk (unescapeChars [Char.ofNat 0xFFFD]) ≠ _
  rw [h2]
  decide

/-- C1 (amended): for every string whose characters are all inside the XML
character range — which includes all five reserved markup characters —
the serialized text field produced by `escapeXML` contains no raw `<`,
`>`, `"` or `'`, every `&` in it starts one of the eight emitted entity
forms, and XML-unescaping recovers the original string.  (Characters
outside the range, e.g. NUL, are replaced by U+FFFD and break the
round-trip; see the counterexample.) -/
theorem escapeXML_reserved_escaped_and_roundtrip (s : String)
    (h : ∀ c ∈ s.data, isInCharacterRange c.toNat = true) :
    (∀ d ∈ (escapeXML s).data, d ≠ '<' ∧ d ≠ '>' ∧ d ≠ '"' ∧ d ≠ Char.ofNat 39)
    ∧ ampOk (escapeXML s).data = true
    ∧ unescapeXML (escapeXML s) = s := by
  refine ⟨?_, ?_, ?_⟩
  · intro d hd
    have hd' : d ∈ s.data.flatMap escChar := hd
    rcases List.mem_flatMap.mp hd' with ⟨c, _, hdc⟩
    exact escChar_no_raw_reserved c d hdc
  · show ampOk (s.data.flatMap escChar) = true
    exact ampOk_flatMap s.data
  · show String.mk (unescapeChars (s.data.flatMap escChar)) = s
    rw [unescapeChars_flatMap s.data h]

/-- Witness for C1's theorem at a concrete string containing all five
reserved characters. -/
theorem escapeXML_reserved_escaped_and_roundtrip_witness :
    (∀ c ∈ "<a&\"x>\x27".data, isInCharacterRange c.toNat = true)
    ∧ ((∀ d ∈ (escapeXML "<a&\"x>\x27").data,
          d ≠ '<' ∧ d ≠ '>' ∧ d ≠ '"' ∧ d ≠ Char.ofNat 39)
       ∧ ampOk (escapeXML "<a&\"x>\x27").data = true
       ∧ unescapeXML (escapeXML "<a&\"x>\x27") = "<a&\"x>\x27") :=
  ⟨by decide, escapeXML_reserved_escaped_and_roundtrip _ (by decide)⟩

/-! ## List items (C2, C3) -/

/-- Whether a block is a list (the child kind at which `addListItem`
emits the item fragment, recurses and returns). -/
def isListBlk : Blk → Bool
  | .list _ _ => true
  | _ => false

/-- The content runs `addListItem`'s loop accumulates over a run of
children: text blocks and paragraphs contribute their inline runs, every
other child kind contributes nothing. -/
def itemRuns : List Blk → List RunStyle
  | [] => []
  | .textBlock is :: rest => processInlineNodes is ++ itemRuns rest
  | .paragraph is :: rest => processInlineNodes is ++ itemRuns rest
  | _ :: rest => itemRuns rest

theorem addListItemLoop_stops (opts : Options) (pre : List Blk)
    (h : ∀ b ∈ pre, isListBlk b = false) (ord : Bool) (cs post : List Blk)
    (indent fontSize : Int) (bullet : String) (level : Int)
    (acc : List RunStyle) :
    addListItemLoop opts (pre ++ .list ord cs :: post) indent fontSize bullet
        level acc
      = Frag.listItemP indent fontSize bullet (acc ++ itemRuns pre)
        :: addList opts ord cs (level + 1) := by
  induction pre generalizing acc with
  | nil => simp [addListItemLoop, itemRuns]
  | cons b rest ih =>
      have hrest : ∀ x ∈ rest, isListBlk x = false :=
        fun x hx => h x (by simp [hx])
      cases b with
      | list o c2 => exact absurd (h (Blk.list o c2) (by simp)) (by simp [isListBlk])
      | textBlock is =>
          simp only [List.cons_append, addListItemLoop, itemRuns,
            ih hrest, List.append_assoc]
      | paragraph is =>
          simp only [List.cons_append, addListItemLoop, itemRuns,
            ih hrest, List.append_assoc]
      | _ => simp_all [addListItemLoop, itemRuns]

/-- The loop characterization when the item has no nested list at all:
one fragment carrying all accumulated runs. -/
theorem addListItemLoop_no_list (opts : Options) (children : List Blk)
    (h : ∀ b ∈ children, isListBlk b = false) (indent fontSize : Int)
    (bullet : String) (level : Int) (acc : List RunStyle) :
    addListItemLoop opts children indent fontSize bullet level acc
      = [Frag.listItemP indent fontSize bullet (acc ++ itemRuns children)] := by
  induction children generalizing acc with
  | nil => simp [addListItemLoop, itemRuns]
  | cons b rest ih =>
      have hrest : ∀ x ∈ rest, isListBlk x = false :=
        fun x hx => h x (by simp [hx])
      cases b with
      | list o c2 => exact absurd (h (Blk.list o c2) (by simp)) (by simp [isListBlk])
      | textBlock is =>
          simp only [addListItemLoop, itemRuns, ih hrest, List.append_assoc]
      | paragraph is =>
          simp only [addListItemLoop, itemRuns, ih hrest, List.append_assoc]
      | _ => simp_all [addListItemLoop, itemRuns]

/-- C2: for a list item whose children are `pre ++ nested-list ++ post`
with no list in `pre`, the item's own fragment — whose runs come only from
the text-block/paragraph children in `pre` — is emitted first, the nested
list is translated at level `L+1` directly after it, and the children in
`post` contribute nothing (the result does not mention `post` at all). -/
theorem addListItem_stops_at_first_nested_list (opts : Options)
    (pre post cs : List Blk) (ordItem ordNested : Bool) (level itemNum : Int)
    (h : ∀ b ∈ pre, isListBlk b = false) :
    addListItem opts (pre ++ .list ordNested cs :: post) level ordItem itemNum
      = Frag.listItemP (360 + level * 360) (goTrunc (opts.fontSize * 2))
          (if ordItem then toString itemNum ++ ". " else unorderedBullet)
          (itemRuns pre)
        :: addList opts ordNested cs (level + 1) := by
  rw [addListItem, addListItemLoop_stops opts pre h]
  simp

/-- Witness for C2's theorem: an item with text before and after a nested
list; the trailing text block does not appear in the output. -/
theorem addListItem_stops_at_first_nested_list_witness :
    (∀ b ∈ [Blk.textBlock [Inl.text "a"]], isListBlk b = false)
    ∧ addListItem opts0
        ([Blk.textBlock [Inl.text "a"]]
          ++ Blk.list true [Blk.listItem [Blk.textBlock [Inl.text "n"]]]
            :: [Blk.textBlock [Inl.text "lost"]]) 0 false 1
      = Frag.listItemP (360 + 0 * 360) (goTrunc (opts0.fontSize * 2))
          (if false then toString (1 : Int) ++ ". " else unorderedBullet)
          (itemRuns [Blk.textBlock [Inl.text "a"]])
        :: addList opts0 true [Blk.listItem [Blk.textBlock [Inl.text "n"]]]
            (0 + 1) :=
  ⟨by decide,
   addListItem_stops_at_first_nested_list opts0 _ _ _ false true 0 1 (by decide)⟩

/-- C3, evaluation at the failing input: for an unordered list the emitted
item prefix is the source file's literal `unorderedBullet` — the mojibake
three-character sequence U+00E2 U+20AC U+00A2 plus a space — and not the
single bullet character `U+2022` plus a space that the specification
states.  The ordered-numbering and indentation parts of the claim do hold,
as the same evaluation shows: the ordered items are prefixed `1. `, `2. `,
`3. `, the nested ordered list restarts at `1. ` despite the parent counter
standing at 2, and its indent is one more 360-twip unit. -/
theorem list_translation_at_failing_input :
    processNode opts0
        [.list false [.listItem [.textBlock [.text "u"]]],
         .list true
           [.listItem [.textBlock [.text "a"]],
            .listItem [.textBlock [.text "b"],
                       .list true [.listItem [.textBlock [.text "n"]]]],
            .listItem [.textBlock [.text "c"]]]]
      = [Frag.listItemP 360 (goTrunc (opts0.fontSize * 2)) unorderedBullet
           [{ text := "u" }],
         Frag.listItemP 360 (goTrunc (opts0.fontSize * 2)) "1. "
           [{ text := "a" }],
         Frag.listItemP 360 (goTrunc (opts0.fontSize * 2)) "2. "
           [{ text := "b" }],
         Frag.listItemP 720 (goTrunc (opts0.fontSize * 2)) "1. "
           [{ text := "n" }],
         Frag.listItemP 360 (goTrunc (opts0.fontSize * 2)) "3. "
           [{ text := "c" }]]
    ∧ unorderedBullet = "â€¢ "
    ∧ unorderedBullet ≠ "• " := by
  refine ⟨?_, by decide, by decide⟩
  simp only [processNode, addList, addListLoop, addListItem, addListItemLoop,
    processInlineNodes, List.append_nil, List.nil_append]
  norm_num
  refine ⟨by decide, by decide, by decide, by decide⟩

/-- C4, counterexample: a block node of a kind outside the dispatch table
is **recursed into**, not skipped — here an unknown wrapper around a
paragraph still produces the paragraph's fragment, so the conversion does
not omit that node's content. -/
theorem processNode_recurses_into_unmatched_kind :
    processNode opts0 [.otherB [.paragraph [.text "x"]]] ≠ [] := by
  simp [processNode, addParagraph]

/-- C4 (amended): a block node whose kind is not in the dispatch table
produces no fragment of its own and causes no error, but its children are
recursively processed in its place (so supported descendants still emit
fragments); only HTML blocks are skipped without recursion. -/
theorem processNode_unmatched_kind_behavior (opts : Options)
    (cs rest : List Blk) :
    processNode opts (.otherB cs :: rest)
      = processNode opts cs ++ processNode opts rest
    ∧ processNode opts (.htmlBlock :: rest) = processNode opts rest
    ∧ processNode opts (.listItem cs :: rest)
      = processNode opts cs ++ processNode opts rest := by
  refine ⟨?_, ?_, ?_⟩ <;> simp [processNode]

/-- The CLI's documented `--code-font-family` value, which `Options`
receives as `CodeFontFamily` but the converter never reads. -/
def opts1 : Options := { opts0 with codeFontFamily := "Courier New" }

/-- C5: the font family emitted for code-block line runs and inline code
runs is the hard-coded literal `Consolas`, for every option set — the
configured `codeFontFamily` (e.g. `Courier New`, as documented by the
CLI's `--code-font-family` flag) is never consulted. -/
theorem code_font_family_hardcoded_consolas :
    (∀ (opts : Options) (cfs : Int) (line : String), ∃ t,
        serializeFrag opts (Frag.codeLineP cfs line) = codeLineTemplateHead ++ t)
    ∧ attrVals "w:ascii" codeLineTemplateHead = ["Consolas"]
    ∧ (∀ (opts : Options) (dfs : Int) (txt : String), ∃ t,
        serializeRun opts dfs { text := txt, code := true, highlight := true }
          = "<w:r><w:rPr><w:highlight w:val=\"lightGray\"/><w:rFonts w:ascii=\"Consolas\" w:hAnsi=\"Consolas\"/><w:sz w:val=\"" ++ t)
    ∧ opts1.codeFontFamily = "Courier New"
    ∧ ("Courier New" : String) ≠ "Consolas" :=
  ⟨fun _ cfs line => ⟨_, rfl⟩, by decide, fun _ dfs txt => ⟨_, rfl⟩,
   rfl, by decide⟩

/-- C6: a code block (fenced or indented) is translated to one fragment
per line of the newline-trimmed joined line content — each carrying the
code font size, with empty lines replaced by a single space — followed by
exactly one spacer fragment; every code-line fragment serializes with the
`F6F8FA` shaded-background paragraph properties (visible in the constant
template head). -/
theorem codeBlock_line_fragments_and_spacer (opts : Options)
    (ls : List String) (rest : List Blk) :
    processNode opts (.fencedCodeBlock ls :: rest)
      = ((trimRightNl (String.join ls)).splitOn "\n").map
          (fun line => Frag.codeLineP (goTrunc (opts.codeFontSize * 2))
            (if line = "" then " " else line))
        ++ Frag.codeSpacerP :: processNode opts rest
    ∧ processNode opts (.codeBlock ls :: rest)
      = ((trimRightNl (String.join ls)).splitOn "\n").map
          (fun line => Frag.codeLineP (goTrunc (opts.codeFontSize * 2))
            (if line = "" then " " else line))
        ++ Frag.codeSpacerP :: processNode opts rest
    ∧ (∀ cfs line, ∃ t,
        serializeFrag opts (Frag.codeLineP cfs line) = codeLineTemplateHead ++ t)
    ∧ "F6F8FA".data <:+: codeLineTemplateHead.data := by
  refine ⟨?_, ?_, fun cfs line => ⟨_, rfl⟩, by decide⟩ <;>
    simp [processNode, addCodeBlock]

/-- C7: a heading produces exactly one fragment; its level is clamped into
`[1, 6]` before the size lookup; its text is the flattened normalized text
of all inline descendants; over levels `1..6` the table size is
non-increasing; and the serialized fragment starts with the constant
template head that forces bold (`<w:b/>`). -/
theorem heading_clamped_bold_single_fragment (opts : Options) (level : Int)
    (cs : List Inl) (rest : List Blk) :
    processNode opts (.heading level cs :: rest)
      = Frag.headingP (headingSizes (clampLevel level)) (extractTextInls cs)
        :: processNode opts rest
    ∧ 1 ≤ clampLevel level ∧ clampLevel level ≤ 6
    ∧ (∀ i j : Int, 1 ≤ i → i ≤ j → j ≤ 6 → headingSizes j ≤ headingSizes i)
    ∧ (∀ sz txt, ∃ t,
        serializeFrag opts (Frag.headingP sz txt) = headingTemplateHead ++ t)
    ∧ "<w:b/>".data <:+: headingTemplateHead.data := by
  refine ⟨?_, ?_, ?_, ?_, fun sz txt => ⟨_, rfl⟩, by decide⟩
  · simp [processNode, addHeading]
  · simp only [clampLevel]; split_ifs <;> omega
  · simp only [clampLevel]; split_ifs <;> omega
  · intro i j h1 h2 h3
    have hi6 : i ≤ 6 := le_trans h2 h3
    interval_cases i <;> interval_cases j <;> simp [headingSizes]

/-- C8: for every option set and every document — the empty document
included — the produced archive consists of exactly the five fixed parts,
every part referenced by a relationship or content-type entry resolves to
a part of the archive (no dangling reference), and the empty document
contributes zero body fragments while all parts are still present. -/
theorem package_fixed_parts_no_dangling_refs (opts : Options)
    (doc : List Blk) :
    (convert opts doc).map Prod.fst = partNames
    ∧ (∀ t ∈ referencedParts, t ∈ partNames)
    ∧ processNode opts [] = [] := by
  refine ⟨rfl, by decide, by simp [processNode]⟩

/-! ## Whitespace normalization (C10) -/

theorem mem_collapseAux {c : Char} (hc : goRegexpSpace c = true) :
    ∀ (l : List Char) (flag : Bool), c ∈ collapseAux flag l → c = ' ' := by
  intro l
  induction l with
  | nil => intro flag h; simp [collapseAux] at h
  | cons d rest ih =>
      intro flag h
      rw [collapseAux] at h
      by_cases hd : goRegexpSpace d = true
      · rw [if_pos hd] at h
        cases flag with
        | true => exact ih true h
        | false =>
            rcases List.mem_cons.mp h with h1 | h1
            · exact h1
            · exact ih true h1
      · rw [if_neg hd] at h
        rcases List.mem_cons.mp h with h1 | h1
        · exact absurd (h1 ▸ hc) hd
        · exact ih false h1

theorem head_collapseAux :
    ∀ (l : List Char) (c : Char), (collapseAux true l).head? = some c →
      goRegexpSpace c = false := by
  intro l
  induction l with
  | nil => intro c h; simp [collapseAux] at h
  | cons d rest ih =>
      intro c h
      rw [collapseAux] at h
      by_cases hd : goRegexpSpace d = true
      · rw [if_pos hd] at h; exact ih c h
      · rw [if_neg hd] at h
        simp only [List.head?_cons, Option.some.injEq] at h
        rw [← h]
        exact Bool.not_eq_true _ ▸ hd

theorem chain_collapseAux (l : List Char) :
    ∀ flag, List.Chain'
      (fun a b => goRegexpSpace a = false ∨ goRegexpSpace b = false)
      (collapseAux flag l) := by
  induction l with
  | nil => intro flag; simp [collapseAux]
  | cons d rest ih =>
      intro flag
      rw [collapseAux]
      by_cases hd : goRegexpSpace d = true
      · rw [if_pos hd]
        cases flag with
        | true => exact ih true
        | false =>
            refine List.chain'_cons'.mpr ⟨?_, ih true⟩
            intro y hy
            exact Or.inr (head_collapseAux rest y hy)
      · rw [if_neg hd]
        refine List.chain'_cons'.mpr ⟨?_, ih false⟩
        intro y _
        exact Or.inl (Bool.not_eq_true _ ▸ hd)

/-- The trimmed list is a prefix of the left-trimmed list. -/
theorem goTrimSpace_front (l : List Char) :
    goTrimSpace l <+: l.dropWhile goUnicodeIsSpace := by
  refine ⟨(List.takeWhile goUnicodeIsSpace
    (l.dropWhile goUnicodeIsSpace).reverse).reverse, ?_⟩
  rw [goTrimSpace, ← List.reverse_append, List.takeWhile_append_dropWhile,
    List.reverse_reverse]

theorem goTrimSpace_sublist (l : List Char) : (goTrimSpace l).Sublist l :=
  List.Sublist.trans (List.IsPrefix.sublist (goTrimSpace_front l)) (List.dropWhile_sublist _)

theorem goTrimSpace_head (l : List Char) (c : Char)
    (h : (goTrimSpace l).head? = some c) : goUnicodeIsSpace c = false := by
  rcases goTrimSpace_front l with ⟨u, hu⟩
  have hm : (l.dropWhile goUnicodeIsSpace).head? = some c := by
    rw [← hu, List.head?_append, h, Option.or]
  have := List.head?_dropWhile_not goUnicodeIsSpace l
  rw [hm] at this
  exact this

theorem goTrimSpace_getLast (l : List Char) (c : Char)
    (h : (goTrimSpace l).getLast? = some c) : goUnicodeIsSpace c = false := by
  rw [goTrimSpace, List.getLast?_reverse] at h
  have := List.head?_dropWhile_not goUnicodeIsSpace
    (l.dropWhile goUnicodeIsSpace).reverse
  rw [h] at this
  exact this

/-- C10, counterexample: a run of two no-break spaces (U+00A0, a Unicode
whitespace character) inside heading/label text is preserved verbatim by
`extractText`, not replaced by a single space. -/
theorem extractText_keeps_nbsp_whitespace_run :
    extractTextInls [Inl.text "a\u00A0\u00A0b"] = "a\u00A0\u00A0b"
    ∧ ("a\u00A0\u00A0b" : String) ≠ "a b" := by
  constructor
  · show normalizeWs (rawTextList [Inl.text "a\u00A0\u00A0b"]) = _
    have h : rawTextList [Inl.text "a\u00A0\u00A0b"] = "a\u00A0\u00A0b" := by
      simp [rawTextList, rawTextInl]
    rw [h]
    decide
  · decide

/-- C10 (amended): `extractText`'s normalization collapses each maximal
run of the Go-regexp whitespace class `[\t\n\f\r ]` to a single space
(afterwards the text contains no such character other than `' '`, and no
two adjacent ones), and trims leading and trailing Unicode whitespace;
other whitespace characters (e.g. U+00A0) are preserved in the interior —
see the counterexample. -/
theorem extractText_normalizes_ascii_whitespace (s : String) :
    extractTextInls [Inl.text s] = normalizeWs s
    ∧ (∀ c ∈ (normalizeWs s).data, goRegexpSpace c = true → c = ' ')
    ∧ List.Chain'
        (fun a b => goRegexpSpace a = false ∨ goRegexpSpace b = false)
        (normalizeWs s).data
    ∧ (∀ c, (normalizeWs s).data.head? = some c → goUnicodeIsSpace c = false)
    ∧ (∀ c, (normalizeWs s).data.getLast? = some c →
        goUnicodeIsSpace c = false) := by
  refine ⟨?_, ?_, ?_, ?_, ?_⟩
  · show normalizeWs (rawTextList [Inl.text s]) = normalizeWs s
    have h : rawTextList [Inl.text s] = s := by simp [rawTextList, rawTextInl]
    rw [h]
  · intro c hc hsp
    have hc' : c ∈ collapseAux false s.data :=
      (goTrimSpace_sublist _).mem hc
    exact mem_collapseAux hsp _ _ hc'
  · have h1 := chain_collapseAux s.data false
    have hsuf : (collapseAux false s.data).dropWhile goUnicodeIsSpace
        <:+ collapseAux false s.data :=
      ⟨_, List.takeWhile_append_dropWhile _ _⟩
    exact List.Chain'.prefix (List.Chain'.suffix h1 hsuf) (goTrimSpace_front _)
  · intro c hc
    exact goTrimSpace_head _ c hc
  · intro c hc
    exact goTrimSpace_getLast _ c hc

/-! ## Link destinations are never serialized (C9)

`scrubBlk` erases every link node's destination URL; the theorems below
show the produced package is byte-identical, i.e. the URL reaches only the
`RunStyle.linkURL` field, which no serializer reads. -/

/-- Erase the `linkURL` field of a run. -/
def scrubRun (r : RunStyle) : RunStyle := { r with linkURL := "" }

/-- Erase the `linkURL` fields inside a fragment. -/
def scrubFrag : Frag → Frag
  | .paraP fs runs => .paraP fs (runs.map scrubRun)
  | .listItemP ind fs b runs => .listItemP ind fs b (runs.map scrubRun)
  | .quoteP fs runs => .quoteP fs (runs.map scrubRun)
  | f => f

mutual
/-- Erase every link destination in an inline tree. -/
def scrubInl : Inl → Inl
  | .text s => .text s
  | .str s => .str s
  | .emphasis l cs => .emphasis l (scrubInls cs)
  | .codeSpan cs => .codeSpan (scrubInls cs)
  | .link _ cs => .link "" (scrubInls cs)
  | .autoLink u => .autoLink u
  | .image cs => .image (scrubInls cs)
  | .other cs => .other (scrubInls cs)

/-- Erase every link destination in a list of inline trees. -/
def scrubInls : List Inl → List Inl
  | [] => []
  | i :: rest => scrubInl i :: scrubInls rest
end

mutual
/-- Erase every link destination in a block tree. -/
def scrubBlk : Blk → Blk
  | .heading l cs => .heading l (scrubInls cs)
  | .paragraph cs => .paragraph (scrubInls cs)
  | .textBlock cs => .textBlock (scrubInls cs)
  | .fencedCodeBlock ls => .fencedCodeBlock ls
  | .codeBlock ls => .codeBlock ls
  | .list o cs => .list o (scrubBlks cs)
  | .listItem cs => .listItem (scrubBlks cs)
  | .blockquote cs => .blockquote (scrubBlks cs)
  | .thematicBreak => .thematicBreak
  | .htmlBlock => .htmlBlock
  | .otherB cs => .otherB (scrubBlks cs)

/-- Erase every link destination in a list of block trees. -/
def scrubBlks : List Blk → List Blk
  | [] => []
  | b :: rest => scrubBlk b :: scrubBlks rest
end

theorem codeSpanDirectText_scrub (cs : List Inl) :
    codeSpanDirectText (scrubInls cs) = codeSpanDirectText cs := by
  induction cs with
  | nil => rfl
  | cons i rest ih =>
      cases i <;> simp [scrubInls, scrubInl, codeSpanDirectText, ih]

mutual
theorem rawTextInl_scrub (i : Inl) :
    rawTextInl (scrubInl i) = rawTextInl i := by
  match i with
  | .text s => rfl
  | .str s => rfl
  | .emphasis l cs => simp [scrubInl, rawTextInl, rawTextList_scrub cs]
  | .codeSpan cs => simp [scrubInl, rawTextInl, codeSpanDirectText_scrub cs]
  | .link d cs => simp [scrubInl, rawTextInl, rawTextList_scrub cs]
  | .autoLink u => rfl
  | .image cs => simp [scrubInl, rawTextInl, rawTextList_scrub cs]
  | .other cs => simp [scrubInl, rawTextInl, rawTextList_scrub cs]

theorem rawTextList_scrub (is : List Inl) :
    rawTextList (scrubInls is) = rawTextList is := by
  match is with
  | [] => rfl
  | i :: rest =>
      simp [scrubInls, rawTextList, rawTextInl_scrub i, rawTextList_scrub rest]
end

theorem extractTextInls_scrub (is : List Inl) :
    extractTextInls (scrubInls is) = extractTextInls is := by
  simp [extractTextInls, rawTextList_scrub]

theorem processInlineNodes_scrub (is : List Inl) :
    (processInlineNodes (scrubInls is)).map scrubRun
      = (processInlineNodes is).map scrubRun := by
  match is with
  | [] => rfl
  | .text s :: rest =>
      simp [scrubInls, scrubInl, processInlineNodes, scrubRun,
        processInlineNodes_scrub rest]
  | .str s :: rest =>
      simp [scrubInls, scrubInl, processInlineNodes, scrubRun,
        processInlineNodes_scrub rest]
  | .emphasis l cs :: rest =>
      simp only [scrubInls, scrubInl, processInlineNodes, List.map_append,
        extractTextInls_scrub, processInlineNodes_scrub rest]
  | .codeSpan cs :: rest =>
      simp [scrubInls, scrubInl, processInlineNodes, scrubRun,
        codeSpanDirectText_scrub, processInlineNodes_scrub rest]
  | .link d cs :: rest =>
      simp [scrubInls, scrubInl, processInlineNodes, scrubRun,
        extractTextInls_scrub, processInlineNodes_scrub rest]
  | .autoLink u :: rest =>
      simp [scrubInls, scrubInl, processInlineNodes, scrubRun,
        processInlineNodes_scrub rest]
  | .image cs :: rest =>
      simp [scrubInls, scrubInl, processInlineNodes, scrubRun,
        extractTextInls_scrub, processInlineNodes_scrub rest]
  | .other cs :: rest =>
      simp only [scrubInls, scrubInl, processInlineNodes, List.map_append,
        processInlineNodes_scrub cs, processInlineNodes_scrub rest]
termination_by sizeOf is

theorem serializeRun_scrub (opts : Options) (dfs : Int) (r : RunStyle) :
    serializeRun opts dfs (scrubRun r) = serializeRun opts dfs r := rfl

theorem wrapRuns_scrub (opts : Options) (runs : List RunStyle) (dfs : Int) :
    wrapRuns opts (runs.map scrubRun) dfs = wrapRuns opts runs dfs := by
  unfold wrapRuns
  congr 1
  rw [List.map_map]
  exact List.map_congr_left (fun r _ => serializeRun_scrub opts dfs r)

theorem serializeFrag_scrub (opts : Options) (f : Frag) :
    serializeFrag opts (scrubFrag f) = serializeFrag opts f := by
  cases f <;> simp [scrubFrag, serializeFrag, wrapRuns_scrub]

theorem scrubRun_style_commute (r : RunStyle) :
    scrubRun { r with italic := true, color := "6A737D" }
      = { scrubRun r with italic := true, color := "6A737D" } := rfl

mutual
theorem processNode_scrub (opts : Options) (bs : List Blk) :
    (processNode opts (scrubBlks bs)).map scrubFrag
      = (processNode opts bs).map scrubFrag := by
  match bs with
  | [] => simp [scrubBlks, processNode]
  | .heading l cs :: rest =>
      simp [scrubBlks, scrubBlk, processNode, addHeading,
        extractTextInls_scrub, scrubFrag, processNode_scrub opts rest]
  | .paragraph cs :: rest =>
      simp only [scrubBlks, scrubBlk, processNode, addParagraph,
        List.map_append, processNode_scrub opts rest, List.map_cons,
        List.map_nil, scrubFrag, List.cons_append, List.nil_append,
        Frag.paraP.injEq, processInlineNodes_scrub cs]
  | .textBlock cs :: rest =>
      simp [scrubBlks, scrubBlk, processNode, processNode_scrub opts rest]
  | .fencedCodeBlock ls :: rest =>
      simp only [scrubBlks, scrubBlk, processNode, List.map_append,
        processNode_scrub opts rest]
  | .codeBlock ls :: rest =>
      simp only [scrubBlks, scrubBlk, processNode, List.map_append,
        processNode_scrub opts rest]
  | .list o cs :: rest =>
      simp only [scrubBlks, scrubBlk, processNode, List.map_append,
        processNode_scrub opts rest, addList_scrub opts o cs 0]
  | .listItem cs :: rest =>
      simp only [scrubBlks, scrubBlk, processNode, List.map_append,
        processNode_scrub opts cs, processNode_scrub opts rest]
  | .blockquote cs :: rest =>
      simp only [scrubBlks, scrubBlk, processNode, List.map_append,
        processNode_scrub opts rest, addBlockquote_scrub opts cs]
  | .thematicBreak :: rest =>
      simp [scrubBlks, scrubBlk, processNode, addHorizontalRule, scrubFrag,
        processNode_scrub opts rest]
  | .htmlBlock :: rest =>
      simp [scrubBlks, scrubBlk, processNode, processNode_scrub opts rest]
  | .otherB cs :: rest =>
      simp only [scrubBlks, scrubBlk, processNode, List.map_append,
        processNode_scrub opts cs, processNode_scrub opts rest]
termination_by (sizeOf bs, 0)

theorem addList_scrub (opts : Options) (o : Bool) (cs : List Blk)
    (level : Int) :
    (addList opts o (scrubBlks cs) level).map scrubFrag
      = (addList opts o cs level).map scrubFrag := by
  rw [addList, addList, addListLoop_scrub opts o cs level 1]
termination_by (sizeOf cs, 1)

theorem addListLoop_scrub (opts : Options) (o : Bool) (cs : List Blk)
    (level itemNum : Int) :
    (addListLoop opts o (scrubBlks cs) level itemNum).map scrubFrag
      = (addListLoop opts o cs level itemNum).map scrubFrag := by
  match cs with
  | [] => simp [scrubBlks, addListLoop]
  | .listItem c :: rest =>
      simp only [scrubBlks, scrubBlk, addListLoop, List.map_append,
        addListItem_scrub opts c level o itemNum,
        addListLoop_scrub opts o rest level (itemNum + 1)]
  | .heading l c :: rest =>
      simpa [scrubBlks, scrubBlk, addListLoop]
        using addListLoop_scrub opts o rest level itemNum
  | .paragraph c :: rest =>
      simpa [scrubBlks, scrubBlk, addListLoop]
        using addListLoop_scrub opts o rest level itemNum
  | .textBlock c :: rest =>
      simpa [scrubBlks, scrubBlk, addListLoop]
        using addListLoop_scrub opts o rest level itemNum
  | .fencedCodeBlock ls :: rest =>
      simpa [scrubBlks, scrubBlk, addListLoop]
        using addListLoop_scrub opts o rest level itemNum
  | .codeBlock ls :: rest =>
      simpa [scrubBlks, scrubBlk, addListLoop]
        using addListLoop_scrub opts o rest level itemNum
  | .list o2 c :: rest =>
      simpa [scrubBlks, scrubBlk, addListLoop]
        using addListLoop_scrub opts o rest level itemNum
  | .blockquote c :: rest =>
      simpa [scrubBlks, scrubBlk, addListLoop]
        using addListLoop_scrub opts o rest level itemNum
  | .thematicBreak :: rest =>
      simpa [scrubBlks, scrubBlk, addListLoop]
        using addListLoop_scrub opts o rest level itemNum
  | .htmlBlock :: rest =>
      simpa [scrubBlks, scrubBlk, addListLoop]
        using addListLoop_scrub opts o rest level itemNum
  | .otherB c :: rest =>
      simpa [scrubBlks, scrubBlk, addListLoop]
        using addListLoop_scrub opts o rest level itemNum
termination_by (sizeOf cs, 0)

theorem addListItem_scrub (opts : Options) (children : List Blk)
    (level : Int) (isOrdered : Bool) (itemNum : Int) :
    (addListItem opts (scrubBlks children) level isOrdered itemNum).map
        scrubFrag
      = (addListItem opts children level isOrdered itemNum).map scrubFrag := by
  rw [addListItem, addListItem]
  exact addListItemLoop_scrub opts children (360 + level * 360)
    (goTrunc (opts.fontSize * 2))
    (if isOrdered then toString itemNum ++ ". " else unorderedBullet) level
    [] [] rfl
termination_by (sizeOf children, 1)

theorem addListItemLoop_scrub (opts : Options) (children : List Blk)
    (indent fontSize : Int) (bullet : String) (level : Int)
    (acc1 acc2 : List RunStyle) (hacc : acc1.map scrubRun = acc2.map scrubRun) :
    (addListItemLoop opts (scrubBlks children) indent fontSize bullet level
        acc1).map scrubFrag
      = (addListItemLoop opts children indent fontSize bullet level acc2).map
          scrubFrag := by
  match children with
  | [] => simp [scrubBlks, addListItemLoop, scrubFrag, hacc]
  | .textBlock is :: rest =>
      have ih := addListItemLoop_scrub opts rest indent fontSize bullet level
        (acc1 ++ processInlineNodes (scrubInls is))
        (acc2 ++ processInlineNodes is)
        (by simp only [List.map_append, hacc, processInlineNodes_scrub is])
      simpa [scrubBlks, scrubBlk, addListItemLoop] using ih
  | .paragraph is :: rest =>
      have ih := addListItemLoop_scrub opts rest indent fontSize bullet level
        (acc1 ++ processInlineNodes (scrubInls is))
        (acc2 ++ processInlineNodes is)
        (by simp only [List.map_append, hacc, processInlineNodes_scrub is])
      simpa [scrubBlks, scrubBlk, addListItemLoop] using ih
  | .list o c :: rest =>
      simp only [scrubBlks, scrubBlk, addListItemLoop, List.map_cons,
        scrubFrag, hacc, addList_scrub opts o c (level + 1)]
  | .heading l c :: rest =>
      simpa [scrubBlks, scrubBlk, addListItemLoop]
        using addListItemLoop_scrub opts rest indent fontSize bullet level
          acc1 acc2 hacc
  | .fencedCodeBlock ls :: rest =>
      simpa [scrubBlks, scrubBlk, addListItemLoop]
        using addListItemLoop_scrub opts rest indent fontSize bullet level
          acc1 acc2 hacc
  | .codeBlock ls :: rest =>
      simpa [scrubBlks, scrubBlk, addListItemLoop]
        using addListItemLoop_scrub opts rest indent fontSize bullet level
          acc1 acc2 hacc
  | .listItem c :: rest =>
      simpa [scrubBlks, scrubBlk, addListItemLoop]
        using addListItemLoop_scrub opts rest indent fontSize bullet level
          acc1 acc2 hacc
  | .blockquote c :: rest =>
      simpa [scrubBlks, scrubBlk, addListItemLoop]
        using addListItemLoop_scrub opts rest indent fontSize bullet level
          acc1 acc2 hacc
  | .thematicBreak :: rest =>
      simpa [scrubBlks, scrubBlk, addListItemLoop]
        using addListItemLoop_scrub opts rest indent fontSize bullet level
          acc1 acc2 hacc
  | .htmlBlock :: rest =>
      simpa [scrubBlks, scrubBlk, addListItemLoop]
        using addListItemLoop_scrub opts rest indent fontSize bullet level
          acc1 acc2 hacc
  | .otherB c :: rest =>
      simpa [scrubBlks, scrubBlk, addListItemLoop]
        using addListItemLoop_scrub opts rest indent fontSize bullet level
          acc1 acc2 hacc
termination_by (sizeOf children, 0)

theorem addBlockquote_scrub (opts : Options) (children : List Blk) :
    (addBlockquote opts (scrubBlks children)).map scrubFrag
      = (addBlockquote opts children).map scrubFrag := by
  match children with
  | [] => simp [scrubBlks, addBlockquote]
  | .paragraph cs :: rest =>
      simp only [scrubBlks, scrubBlk, addBlockquote, List.map_cons,
        scrubFrag, Frag.quoteP.injEq, addBlockquote_scrub opts rest,
        List.map_map]
      congr 1
      congr 1
      calc (processInlineNodes (scrubInls cs)).map
              (scrubRun ∘ fun r => { r with italic := true, color := "6A737D" })
          = (processInlineNodes (scrubInls cs)).map
              ((fun r => { r with italic := true, color := "6A737D" }) ∘ scrubRun) :=
            List.map_congr_left (fun r _ => rfl)
        _ = ((processInlineNodes (scrubInls cs)).map scrubRun).map
              (fun r => { r with italic := true, color := "6A737D" }) :=
            (List.map_map _ _ _).symm
        _ = ((processInlineNodes cs).map scrubRun).map
              (fun r => { r with italic := true, color := "6A737D" }) := by
            rw [processInlineNodes_scrub cs]
        _ = (processInlineNodes cs).map
              ((fun r => { r with italic := true, color := "6A737D" }) ∘ scrubRun) :=
            List.map_map _ _ _
        _ = (processInlineNodes cs).map
              (scrubRun ∘ fun r => { r with italic := true, color := "6A737D" }) :=
            List.map_congr_left (fun r _ => rfl)
  | .heading l c :: rest =>
      simpa [scrubBlks, scrubBlk, addBlockquote]
        using addBlockquote_scrub opts rest
  | .textBlock c :: rest =>
      simpa [scrubBlks, scrubBlk, addBlockquote]
        using addBlockquote_scrub opts rest
  | .fencedCodeBlock ls :: rest =>
      simpa [scrubBlks, scrubBlk, addBlockquote]
        using addBlockquote_scrub opts rest
  | .codeBlock ls :: rest =>
      simpa [scrubBlks, scrubBlk, addBlockquote]
        using addBlockquote_scrub opts rest
  | .list o c :: rest =>
      simpa [scrubBlks, scrubBlk, addBlockquote]
        using addBlockquote_scrub opts rest
  | .listItem c :: rest =>
      simpa [scrubBlks, scrubBlk, addBlockquote]
        using addBlockquote_scrub opts rest
  | .blockquote c :: rest =>
      simpa [scrubBlks, scrubBlk, addBlockquote]
        using addBlockquote_scrub opts rest
  | .thematicBreak :: rest =>
      simpa [scrubBlks, scrubBlk, addBlockquote]
        using addBlockquote_scrub opts rest
  | .htmlBlock :: rest =>
      simpa [scrubBlks, scrubBlk, addBlockquote]
        using addBlockquote_scrub opts rest
  | .otherB c :: rest =>
      simpa [scrubBlks, scrubBlk, addBlockquote]
        using addBlockquote_scrub opts rest
termination_by (sizeOf children, 0)
end

/-- C9: a link inline node yields exactly one run holding only the label's
flattened text, the link flag (serialized as underline) and the fixed color
`0000FF`; the destination URL is stored only in `RunStyle.linkURL`, which no
serializer reads: `serializeRun` is unchanged under any `linkURL`
replacement, erasing every link destination in a document leaves the whole
produced package byte-identical, the document relationships part targets
only `styles.xml` (no hyperlink relationship), and the serialized link run
is the plain fixed template over text, color and underline alone. -/
theorem link_url_never_serialized (opts : Options) (doc : List Blk)
    (dest : String) (cs : List Inl) (restInl : List Inl) :
    processInlineNodes (.link dest cs :: restInl)
      = { text := extractTextInls cs, link := true, linkURL := dest,
          color := "0000FF" } :: processInlineNodes restInl
    ∧ (∀ (dfs : Int) (r : RunStyle) (url : String),
        serializeRun opts dfs { r with linkURL := url } = serializeRun opts dfs r)
    ∧ convert opts (scrubBlks doc) = convert opts doc
    ∧ attrVals "Target" docRelsXml = ["styles.xml"]
    ∧ (∀ (dfs : Int) (t u : String),
        serializeRun opts dfs
            { text := t, link := true, linkURL := u, color := "0000FF" }
          = "<w:r><w:rPr><w:color w:val=\"0000FF\"/><w:u w:val=\"single\"/><w:sz w:val=\""
            ++ (toString dfs ++ ("\"/><w:szCs w:val=\"" ++ (toString dfs
            ++ ("\"/></w:rPr><w:t xml:space=\"preserve\">"
            ++ (escapeXML t ++ "</w:t></w:r>")))))) := by
  refine ⟨by simp [processInlineNodes], fun dfs r url => rfl, ?_,
    by decide, fun dfs t u => rfl⟩
  show createDocx opts ((processNode opts (scrubBlks doc)).map (serializeFrag opts))
      = createDocx opts ((processNode opts doc).map (serializeFrag opts))
  have key : (processNode opts (scrubBlks doc)).map (serializeFrag opts)
      = (processNode opts doc).map (serializeFrag opts) := by
    calc (processNode opts (scrubBlks doc)).map (serializeFrag opts)
        = ((processNode opts (scrubBlks doc)).map scrubFrag).map
            (serializeFrag opts) := by
          rw [List.map_map]
          exact List.map_congr_left
            (fun f _ => (serializeFrag_scrub opts f).symm)
      _ = ((processNode opts doc).map scrubFrag).map (serializeFrag opts) := by
          rw [processNode_scrub]
      _ = (processNode opts doc).map (serializeFrag opts) := by
          rw [List.map_map]
          exact List.map_congr_left (fun f _ => serializeFrag_scrub opts f)
  rw [key]

end MdWord
